import Mathlib

/-!
Verification development for the "growth-app" 7-day quest planner.

The repository is a single Next.js page in three successive iterations:
`src/app/page.tsx` (the canonical build entry) and two unnamed variants of
the same file (an earlier one, called `P1` below where it differs, and a
later redesign, called `P2` below).  The logical core consists of:

* a fixed category/template table and the plan generator `buildWeekPlan`;
* the scoring and rank functions `calculateRank`, `addScore`, `totalPoints`;
* the state-controller operations `toggleDone`, `toggleEnabled`, `resetAll`;
* the persistence adapter `loadState` / `saveState` over one storage key;
* the mock chat responder `mockAssistant`.

Modelling conventions:

* `uid()` (`Math.random().toString(36).slice(2, 10)`) is a nondeterministic
  source of id tokens; it is modelled by a stream `ids : Nat → String`
  where the n-th `uid()` call of a plan generation returns `ids n`.
* TypeScript `number`s holding scores are modelled as `Int`; loop counters
  and day numbers as `Nat`.
* A TypeScript function that can throw (indexing `plans[dayIdx]` with an
  out-of-range index yields `undefined` and then `undefined.quests` raises
  a `TypeError`) is modelled with an `Option` result, `none` standing for
  the raised exception.
* `localStorage` holds one value under one key; the cell is modelled at the
  parse level: `none` = key absent, `some none` = present but not valid
  JSON (so `JSON.parse` throws), `some (some j)` = present and parses to
  the JSON tree `j`.  `JSON.stringify`/`JSON.parse` string rendering is
  injective and is abstracted away; the serialized blob is modelled by its
  JSON tree.
-/

/-- The nine fixed growth categories.  The source keys are the Japanese
strings 運動, 学習, 習慣, 信仰, 人間力, 金銭, 睡眠, 食事, メンタル; the
constructor names follow the spec's English glosses (exercise, learning,
habit, faith, social, finance, sleep, diet, mental). -/
inductive CategoryKey where
  | exercise | learning | habit | faith | social | finance | sleep | diet | mental
  deriving DecidableEq, Repr

/-- The source string of a category key (the literal union members of the
TypeScript type `CategoryKey`). -/
def CategoryKey.keyStr : CategoryKey → String
  | .exercise => "運動"
  | .learning => "学習"
  | .habit => "習慣"
  | .faith => "信仰"
  | .social => "人間力"
  | .finance => "金銭"
  | .sleep => "睡眠"
  | .diet => "食事"
  | .mental => "メンタル"

/-- `TEMPLATE_QUESTS`: the fixed per-category template pools (identical in
all three source variants). -/
def TEMPLATE_QUESTS : CategoryKey → List String
  | .exercise => ["10分ストレッチ（首・肩・腰）", "軽いジョグ10分", "腕立て・腹筋・背筋 各10回"]
  | .learning => ["英単語15分", "読書20分", "講義ノートの復習10分"]
  | .habit => ["デスク片付け5分", "洗濯物たたむ", "翌日のToDoを3つ書く"]
  | .faith => ["日記3行（感謝）", "静かな祈り・瞑想5分", "善い行いを1つ"]
  | .social => ["誰かに挨拶＋一言", "家族/友人にLINEで近況", "ありがとうを3回伝える"]
  | .finance => ["家計簿入力3分", "不要支出チェック", "投資/貯蓄を500円検討"]
  | .sleep => ["就寝前のブルーライト10分カット", "就寝/起床時刻を記録", "水分を一杯飲む"]
  | .diet => ["水を1日1.5L目標", "サラダ/タンパク質を一品", "間食を一度スキップ"]
  | .mental => ["深呼吸3回", "3分瞑想", "散歩5分"]

/-- A quest.  The four core fields are shared by all variants; the last five
optional fields are the decorative attributes added by the `P2` variant
(`category`, `points`, `progress`, `locked`, `note`); in the other variants
they are always absent (`none`). -/
structure Quest where
  id : String
  title : String
  done : Bool
  enabled : Bool
  category : Option String := none
  points : Option Int := none
  progress : Option Int := none
  locked : Option Bool := none
  note : Option String := none
  deriving DecidableEq, Repr

/-- One of the seven day plans (`day` is 1-based). -/
structure DayPlan where
  day : Nat
  quests : List Quest
  deriving DecidableEq, Repr

/-- Display theme (background and text color). -/
structure Theme where
  backgroundColor : String
  textColor : String
  deriving DecidableEq, Repr

/-- The persisted application state (`selectedCategories`, `plans`,
optional `createdAt` ISO string, optional `theme`). -/
structure AppState where
  selectedCategories : List CategoryKey
  plans : List DayPlan
  createdAt : Option String := none
  theme : Option Theme := none
  deriving DecidableEq, Repr

/-- The six rank tiers, in ascending order.  The source represents them as
the strings 入門者 (Novice) … 王者 (Sovereign). -/
inductive Rank where
  | novice | squire | knight | marquis | duke | sovereign
  deriving DecidableEq, Repr

/-- `calculateRank` from the source (identical in `page.tsx` and `P2`): a
descending chain of `score >= threshold` tests. -/
def calculateRank (score : Int) : Rank :=
  if score ≥ 1000 then .sovereign
  else if score ≥ 500 then .duke
  else if score ≥ 200 then .marquis
  else if score ≥ 100 then .knight
  else if score ≥ 50 then .squire
  else .novice

/-- `addScore` from `page.tsx`: adds the points and recomputes the rank. -/
def addScore (currentScore : Int) (points : Int) : Int × Rank :=
  let newScore := currentScore + points
  (newScore, calculateRank newScore)

/-- `POINTS_PER_QUEST` from the `P2` variant. -/
def POINTS_PER_QUEST : Nat := 10

/-- `STORAGE_KEY`: the single storage key used by the persistence adapter. -/
def STORAGE_KEY : String := "growth-planner-v1"

/-- The inclusive lower bound of each rank tier (`thresholdByRank` in the
`P2` variant, and the constants of `calculateRank`). -/
def rankThreshold : Rank → Int
  | .novice => 0
  | .squire => 50
  | .knight => 100
  | .marquis => 200
  | .duke => 500
  | .sovereign => 1000

/-- The position of a tier in the ascending tier order (`rankOrder` in the
`P2` variant). -/
def rankIdx : Rank → Nat
  | .novice => 0
  | .squire => 1
  | .knight => 2
  | .marquis => 3
  | .duke => 4
  | .sovereign => 5

/-- C4: `calculateRank` returns the highest of the six tiers whose inclusive
lower bound (0, 50, 100, 200, 500, 1000) is at most the score; it is
monotonically non-decreasing, `calculateRank 0` is the lowest tier and
`calculateRank 1000` the highest. -/
theorem c4_rank_thresholds (s t : Int) (hs : 0 ≤ s) (hst : s ≤ t) :
    (rankThreshold (calculateRank s) ≤ s ∧
      ∀ r : Rank, rankThreshold r ≤ s → rankIdx r ≤ rankIdx (calculateRank s)) ∧
    rankIdx (calculateRank s) ≤ rankIdx (calculateRank t) ∧
    calculateRank 0 = Rank.novice ∧ calculateRank 1000 = Rank.sovereign := by
  refine ⟨⟨?_, ?_⟩, ?_, by decide, by decide⟩
  · unfold calculateRank
    split_ifs <;> simp [rankThreshold] <;> try omega
  · intro r hr
    unfold calculateRank
    cases r <;> simp [rankThreshold] at hr <;> split_ifs <;> simp [rankIdx] <;> omega
  · unfold calculateRank
    split_ifs <;> simp [rankIdx] <;> omega

/-- Witness for C4 at `s = 0`, `t = 1000`. -/
theorem c4_rank_thresholds_witness :
    (rankThreshold (calculateRank 0) ≤ 0 ∧
      ∀ r : Rank, rankThreshold r ≤ 0 → rankIdx r ≤ rankIdx (calculateRank 0)) ∧
    rankIdx (calculateRank 0) ≤ rankIdx (calculateRank 1000) ∧
    calculateRank 0 = Rank.novice ∧ calculateRank 1000 = Rank.sovereign :=
  c4_rank_thresholds 0 1000 (by decide) (by decide)

/-- Replace the element at index `n` by its image under `f`; out-of-range
indices leave the list unchanged.  This models the in-place mutation
`copy.plans[dayIdx] = …` performed on the structured clone. -/
def modifyIdx (f : α → α) : Nat → List α → List α
  | _, [] => []
  | 0, x :: xs => f x :: xs
  | n + 1, x :: xs => x :: modifyIdx f n xs

/-- Replace the first element satisfying `p` by its image under `f`; if no
element matches, the list is unchanged.  This models the in-place mutation
of the quest object returned by `day.quests.find(…)`. -/
def modifyFirst (p : α → Bool) (f : α → α) : List α → List α
  | [] => []
  | x :: xs => if p x then f x :: xs else x :: modifyFirst p f xs

theorem getElem?_modifyIdx_self (f : α → α) :
    ∀ (n : Nat) (l : List α), (modifyIdx f n l)[n]? = l[n]?.map f
  | _, [] => by simp [modifyIdx]
  | 0, x :: xs => by simp [modifyIdx]
  | n + 1, x :: xs => by simp [modifyIdx, getElem?_modifyIdx_self f n xs]

theorem modifyIdx_modifyIdx (f g : α → α) :
    ∀ (n : Nat) (l : List α),
      modifyIdx f n (modifyIdx g n l) = modifyIdx (fun a => f (g a)) n l
  | _, [] => by simp [modifyIdx]
  | 0, x :: xs => by simp [modifyIdx]
  | n + 1, x :: xs => by simp [modifyIdx, modifyIdx_modifyIdx f g n xs]

theorem modifyIdx_eq_self (f : α → α) :
    ∀ (n : Nat) (l : List α) (a : α), l[n]? = some a → f a = a → modifyIdx f n l = l
  | _, [], a, h, _ => by simp at h
  | 0, x :: xs, a, h, hf => by
    simp at h
    simp [modifyIdx, h ▸ hf]
  | n + 1, x :: xs, a, h, hf => by
    simp at h
    simp [modifyIdx, modifyIdx_eq_self f n xs a h hf]

theorem mem_modifyIdx (f : α → α) :
    ∀ (n : Nat) (l : List α) (x : α), x ∈ modifyIdx f n l →
      x ∈ l ∨ ∃ a, l[n]? = some a ∧ x = f a
  | _, [], x, h => by simp [modifyIdx] at h
  | 0, y :: ys, x, h => by
    rcases (by simpa [modifyIdx] using h) with h | h
    · exact Or.inr ⟨y, by simp, h⟩
    · exact Or.inl (List.mem_cons_of_mem _ h)
  | n + 1, y :: ys, x, h => by
    rcases (by simpa [modifyIdx] using h) with h | h
    · exact Or.inl (h ▸ List.mem_cons_self _ _)
    · rcases mem_modifyIdx f n ys x h with h | ⟨a, ha, hx⟩
      · exact Or.inl (List.mem_cons_of_mem _ h)
      · exact Or.inr ⟨a, by simpa using ha, hx⟩

theorem mem_modifyFirst (p : α → Bool) (f : α → α) :
    ∀ (l : List α) (x : α), x ∈ modifyFirst p f l →
      x ∈ l ∨ ∃ a, l.find? p = some a ∧ x = f a
  | [], x, h => by simp [modifyFirst] at h
  | y :: ys, x, h => by
    by_cases hp : p y
    · rcases (by simpa [modifyFirst, hp] using h) with h | h
      · exact Or.inr ⟨y, by simp [List.find?_cons, hp], h⟩
      · exact Or.inl (List.mem_cons_of_mem _ h)
    · rcases (by simpa [modifyFirst, hp] using h) with h | h
      · exact Or.inl (h ▸ List.mem_cons_self _ _)
      · rcases mem_modifyFirst p f ys x h with h | ⟨a, ha, hx⟩
        · exact Or.inl (List.mem_cons_of_mem _ h)
        · exact Or.inr ⟨a, by simp [List.find?_cons, hp, ha], hx⟩

theorem find?_modifyFirst (p : α → Bool) (f : α → α) :
    ∀ (l : List α) (a : α), l.find? p = some a → p (f a) = true →
      (modifyFirst p f l).find? p = some (f a)
  | [], a, h, _ => by simp at h
  | y :: ys, a, h, hfa => by
    by_cases hp : p y
    · simp [List.find?_cons, hp] at h
      subst h
      simp [modifyFirst, hp, List.find?_cons, hfa]
    · simp [List.find?_cons, hp] at h
      simp [modifyFirst, hp, List.find?_cons, find?_modifyFirst p f ys a h hfa]

theorem apply_mem_modifyFirst (p : α → Bool) (f : α → α) :
    ∀ (l : List α) (a : α), l.find? p = some a → f a ∈ modifyFirst p f l
  | [], a, h => by simp at h
  | y :: ys, a, h => by
    by_cases hp : p y
    · simp [List.find?_cons, hp] at h
      subst h
      simp [modifyFirst, hp]
    · simp [List.find?_cons, hp] at h
      simp [modifyFirst, hp]
      exact Or.inr (apply_mem_modifyFirst p f ys a h)

theorem modifyFirst_modifyFirst (p : α → Bool) (f g : α → α)
    (hg : ∀ a, p (g a) = p a) :
    ∀ l : List α, modifyFirst p f (modifyFirst p g l) = modifyFirst p (fun a => f (g a)) l
  | [] => by simp [modifyFirst]
  | y :: ys => by
    by_cases hp : p y
    · simp [modifyFirst, hp, hg y]
    · simp [modifyFirst, hp, modifyFirst_modifyFirst p f g hg ys]

theorem modifyFirst_eq_self (p : α → Bool) (f : α → α) :
    ∀ (l : List α) (a : α), l.find? p = some a → f a = a → modifyFirst p f l = l
  | [], a, h, _ => by simp at h
  | y :: ys, a, h, hf => by
    by_cases hp : p y
    · simp [List.find?_cons, hp] at h
      simp [modifyFirst, hp, h ▸ hf]
    · simp [List.find?_cons, hp] at h
      simp [modifyFirst, hp, modifyFirst_eq_self p f ys a h hf]

/-- The quests pushed for one day by the `selected.forEach((cat, idx) => …)`
loop of `buildWeekPlan` (`page.tsx` / `P1` version): for the category at
positional index `idx` the pool is rotated by `base = (i + idx) %
candidates.length` and the two titles `candidates[base]` and
`candidates[(base + 1) % candidates.length]` are pushed, each as a fresh
quest with `done = false`, `enabled = true`.  `ids` is the `uid()` stream
and `c` the number of `uid()` calls made before this point. -/
def questsFor (ids : Nat → String) (i : Nat) : Nat → Nat → List CategoryKey → List Quest
  | _, _, [] => []
  | idx, c, cat :: rest =>
    let candidates := TEMPLATE_QUESTS cat
    let base := (i + idx) % candidates.length
    { id := ids c, title := candidates.getD base "", done := false, enabled := true } ::
    { id := ids (c + 1), title := candidates.getD ((base + 1) % candidates.length) "",
      done := false, enabled := true } ::
    questsFor ids i (idx + 1) (c + 2) rest

/-- `buildWeekPlan` (`page.tsx` / `P1` version; the `P2` version differs only
in the decorative `category`/`points`/`progress`/`locked` fields it attaches
to each quest): the loop `for (let i = 1; i <= 7; i++)` is modelled over
`j = i - 1 ∈ range 7`; each day's pushed quests are trimmed to the first 5.
Day `i` starts after `(i - 1) * 2 * selected.length` earlier `uid()` calls. -/
def buildWeekPlan (ids : Nat → String) (selected : List CategoryKey) : List DayPlan :=
  (List.range 7).map (fun j =>
    { day := j + 1,
      quests := (questsFor ids (j + 1) 0 (j * (2 * selected.length)) selected).take 5 })

/-- The quest-lookup predicate `(x) => x.id === qid` used by every toggle. -/
def questIdIs (qid : String) (q : Quest) : Bool := q.id == qid

/-- Flip of the `done` flag (`q.done = !q.done`). -/
def flipDone (q : Quest) : Quest := { q with done := !q.done }

/-- Update of one day plan: replace the first quest matching `p` by its
image under `f` (the in-place mutation of the found quest object). -/
def updDay (p : Quest → Bool) (f : Quest → Quest) (d : DayPlan) : DayPlan :=
  { d with quests := modifyFirst p f d.quests }

/-- `toggleDone` from `page.tsx`: clones the state, looks up
`copy.plans[dayIdx]` (an out-of-range index raises, modelled as `none`),
returns unchanged state when the quest id is not found, otherwise flips
`done` — with **no** check of `enabled` — and updates the score: `+1` when
the quest became done, else `max 0 (score - 1)`. -/
def toggleDonePage (st : AppState) (score : Int) (dayIdx : Nat) (qid : String) :
    Option (AppState × Int) :=
  match st.plans[dayIdx]? with
  | none => none
  | some day =>
    match day.quests.find? (questIdIs qid) with
    | none => some (st, score)
    | some q =>
      let newDone := !q.done
      let newScore := if newDone then (addScore score 1).1 else max 0 (score - 1)
      some ({ st with plans := modifyIdx (updDay (questIdIs qid) flipDone) dayIdx st.plans },
        newScore)

/-- `toggleEnabled` from `page.tsx` (and `P1`): flips `enabled` and nothing
else — in particular it does **not** reset `done` when disabling. -/
def toggleEnabledPage (st : AppState) (dayIdx : Nat) (qid : String) : Option AppState :=
  match st.plans[dayIdx]? with
  | none => none
  | some day =>
    match day.quests.find? (questIdIs qid) with
    | none => some st
    | some _ =>
      let g := updDay (questIdIs qid) (fun q => { q with enabled := !q.enabled })
      some { st with plans := modifyIdx g dayIdx st.plans }

/-- `toggleDone` from the `P2` variant: as in `page.tsx` but with the guard
`if (!q || !q.enabled) return;` — a disabled or missing quest is a silent
no-op.  `P2` keeps no incremental score, so only the state is returned. -/
def toggleDoneP2 (st : AppState) (dayIdx : Nat) (qid : String) : Option AppState :=
  match st.plans[dayIdx]? with
  | none => none
  | some day =>
    match day.quests.find? (questIdIs qid) with
    | none => some st
    | some q =>
      if q.enabled then
        some { st with plans := modifyIdx (updDay (questIdIs qid) flipDone) dayIdx st.plans }
      else some st

/-- The per-quest mutation of `toggleEnabled` in the `P2` variant:
`q.enabled = !q.enabled; if (!q.enabled) q.done = false`. -/
def flipEnabledP2 (q : Quest) : Quest :=
  let e := !q.enabled
  { q with enabled := e, done := if e then q.done else false }

/-- `toggleEnabled` from the `P2` variant: flips `enabled` and forces
`done = false` when the quest was just disabled. -/
def toggleEnabledP2 (st : AppState) (dayIdx : Nat) (qid : String) : Option AppState :=
  match st.plans[dayIdx]? with
  | none => none
  | some day =>
    match day.quests.find? (questIdIs qid) with
    | none => some st
    | some _ =>
      some { st with plans := modifyIdx (updDay (questIdIs qid) flipEnabledP2) dayIdx st.plans }

/-- `totalPoints` from the `P2` variant: the score is recomputed as
`10 × count(done ∧ enabled quests across all days)`. -/
def totalPoints (st : AppState) : Nat :=
  ((st.plans.flatMap (fun p => p.quests)).filter (fun q => q.enabled && q.done)).length *
    POINTS_PER_QUEST

/-- The state invariant of spec §3: a disabled quest is never done. -/
def invHolds (st : AppState) : Prop :=
  ∀ d ∈ st.plans, ∀ q ∈ d.quests, q.enabled = false → q.done = false

theorem length_questsFor (ids : Nat → String) (i : Nat) :
    ∀ (sel : List CategoryKey) (idx c : Nat),
      (questsFor ids i idx c sel).length = 2 * sel.length
  | [], _, _ => by simp [questsFor]
  | _ :: rest, idx, c => by
    simp [questsFor, length_questsFor ids i rest (idx + 1) (c + 2)]
    omega

theorem map_id_questsFor (ids : Nat → String) (i : Nat) :
    ∀ (sel : List CategoryKey) (idx c : Nat),
      (questsFor ids i idx c sel).map (fun q => q.id) =
        (List.range' c (2 * sel.length)).map ids
  | [], _, _ => by simp [questsFor]
  | _ :: rest, idx, c => by
    have h2 : 2 * (rest.length + 1) = (2 * rest.length) + 1 + 1 := by omega
    simp only [questsFor, List.map_cons, List.length_cons, h2, List.range'_succ]
    simp [map_id_questsFor ids i rest (idx + 1) (c + 2)]

theorem flags_questsFor (ids : Nat → String) (i : Nat) :
    ∀ (sel : List CategoryKey) (idx c : Nat),
      ∀ q ∈ questsFor ids i idx c sel, q.done = false ∧ q.enabled = true
  | [], _, _ => by simp [questsFor]
  | _ :: rest, idx, c => by
    intro q hq
    rcases (by simpa [questsFor] using hq) with h | h | h
    · subst h; exact ⟨rfl, rfl⟩
    · subst h; exact ⟨rfl, rfl⟩
    · exact flags_questsFor ids i rest (idx + 1) (c + 2) q h

theorem take_range' : ∀ (n m s : Nat), (List.range' s m).take n = List.range' s (min n m)
  | _, 0, _ => by simp
  | 0, _ + 1, _ => by simp
  | n + 1, m + 1, s => by
    simp [List.range'_succ, take_range' n m (s + 1), Nat.succ_min_succ]

theorem blocks_pairwise (m t : Nat) (ht : t ≤ m) :
    ∀ n : Nat,
      List.Pairwise (· < ·) ((List.range n).flatMap (fun j => List.range' (j * m) t))
  | 0 => by simp
  | n + 1 => by
    rw [List.range_succ, List.flatMap_append]
    rw [List.pairwise_append]
    refine ⟨blocks_pairwise m t ht n, by simp [List.pairwise_lt_range'], ?_⟩
    intro x hx y hy
    rcases List.mem_flatMap.1 hx with ⟨j, hj, hxj⟩
    have hjn : j < n := List.mem_range.1 hj
    have hx2 : x < j * m + t := (List.mem_range'_1.1 hxj).2
    have hy1 : n * m ≤ y := by
      simp only [List.flatMap_singleton] at hy
      exact (List.mem_range'_1.1 hy).1
    have : j * m + t ≤ n * m := by
      calc j * m + t ≤ j * m + m := by omega
        _ = (j + 1) * m := by ring
        _ ≤ n * m := Nat.mul_le_mul_right m hjn
    omega

/-- The ids of the whole generated plan are the images under the `uid()`
stream of the (strictly increasing) list of call positions actually
consumed: for day `j` (0-based) positions `j·2k … j·2k + min 5 2k − 1`. -/
theorem buildWeekPlan_ids (ids : Nat → String) (selected : List CategoryKey) :
    (buildWeekPlan ids selected).flatMap (fun d => d.quests.map (fun q => q.id)) =
      ((List.range 7).flatMap
        (fun j => List.range' (j * (2 * selected.length)) (min 5 (2 * selected.length)))).map
        ids := by
  unfold buildWeekPlan
  rw [List.flatMap_map, List.map_flatMap]
  refine List.flatMap_congr ?_
  intro j _
  dsimp only
  rw [List.map_take, map_id_questsFor, ← List.map_take, take_range']

/-- Spec-side selection formula (§4.1): for the category at positional
index `idx` with pool `pool`, day `i` selects `pool[(i + idx) % pool.length]`
and `pool[(i + idx + 1) % pool.length]`, concatenated in category-selection
order.  Written from the spec's words, to be compared with `questsFor`. -/
def specDayTitles (selected : List CategoryKey) (i : Nat) : List String :=
  selected.enum.flatMap (fun p =>
    let pool := TEMPLATE_QUESTS p.2
    [pool.getD ((i + p.1) % pool.length) "", pool.getD ((i + p.1 + 1) % pool.length) ""])

theorem map_title_questsFor (ids : Nat → String) (i : Nat) :
    ∀ (sel : List CategoryKey) (idx c : Nat),
      (questsFor ids i idx c sel).map (fun q => q.title) =
        (sel.enumFrom idx).flatMap (fun p =>
          let pool := TEMPLATE_QUESTS p.2
          [pool.getD ((i + p.1) % pool.length) "", pool.getD ((i + p.1 + 1) % pool.length) ""])
  | [], _, _ => by simp [questsFor]
  | cat :: rest, idx, c => by
    simp only [questsFor, List.map_cons, List.enumFrom_cons, List.flatMap_cons]
    simp [map_title_questsFor ids i rest (idx + 1) (c + 2), Nat.mod_add_mod]

/-- C5: each generated day `i ∈ 1..7` carries exactly the spec's rotated
title pairs, concatenated in category-selection order and truncated to the
first 5; the titles do not depend on the id stream (only id generation is
nondeterministic). -/
theorem c5_rotation_formula (ids : Nat → String) (selected : List CategoryKey) :
    (buildWeekPlan ids selected).map (fun d => (d.day, d.quests.map (fun q => q.title))) =
      (List.range 7).map (fun j => (j + 1, (specDayTitles selected (j + 1)).take 5)) := by
  unfold buildWeekPlan
  rw [List.map_map]
  refine List.map_congr_left ?_
  intro j _
  dsimp only [Function.comp]
  congr 1
  rw [List.map_take, map_title_questsFor]
  rfl

/-- C1: for any category selection and any injective id stream (the model of
`uid()` returning fresh random tokens), `buildWeekPlan` returns exactly 7
day plans, each with at most 5 quests, every quest `done = false` and
`enabled = true`, and all ids across the whole plan pairwise distinct. -/
theorem c1_generate_shape (ids : Nat → String) (selected : List CategoryKey)
    (hids : Function.Injective ids) (hsel : selected ≠ []) :
    (buildWeekPlan ids selected).length = 7 ∧
    (∀ d ∈ buildWeekPlan ids selected, d.quests.length ≤ 5 ∧
      ∀ q ∈ d.quests, q.done = false ∧ q.enabled = true) ∧
    ((buildWeekPlan ids selected).flatMap (fun d => d.quests.map (fun q => q.id))).Nodup := by
  refine ⟨by simp [buildWeekPlan], ?_, ?_⟩
  · intro d hd
    unfold buildWeekPlan at hd
    rcases List.mem_map.1 hd with ⟨j, hj, rfl⟩
    refine ⟨List.length_take_le _ _, ?_⟩
    intro q hq
    exact flags_questsFor ids (j + 1) selected 0 _ q (List.mem_of_mem_take hq)
  · rw [buildWeekPlan_ids]
    refine List.Nodup.map hids ?_
    exact (blocks_pairwise (2 * selected.length) (min 5 (2 * selected.length))
      (Nat.min_le_right _ _) 7).imp (fun h => Nat.ne_of_lt h)

/-- A concrete injective id stream used by witnesses: the n-th id is the
string of n copies of the letter a. -/
def idStream (n : Nat) : String := String.mk (List.replicate n 'a')

theorem idStream_injective : Function.Injective idStream := by
  intro a b h
  have hlen := congrArg String.length h
  simpa [idStream, String.length] using hlen

/-- Witness for C1 with the two-category selection exercise, learning. -/
theorem c1_generate_shape_witness :
    (buildWeekPlan idStream [CategoryKey.exercise, CategoryKey.learning]).length = 7 ∧
    (∀ d ∈ buildWeekPlan idStream [CategoryKey.exercise, CategoryKey.learning],
      d.quests.length ≤ 5 ∧ ∀ q ∈ d.quests, q.done = false ∧ q.enabled = true) ∧
    ((buildWeekPlan idStream [CategoryKey.exercise, CategoryKey.learning]).flatMap
      (fun d => d.quests.map (fun q => q.id))).Nodup :=
  c1_generate_shape idStream [CategoryKey.exercise, CategoryKey.learning]
    idStream_injective (by decide)

/-- C10: with `k` selected categories every one of the 7 generated day plans
holds exactly `min (2k) 5` quests (`2k` quests are pushed, then the list is
trimmed to 5). -/
theorem c10_day_quest_count (ids : Nat → String) (selected : List CategoryKey)
    (hsel : selected ≠ []) :
    ∀ d ∈ buildWeekPlan ids selected, d.quests.length = min (2 * selected.length) 5 := by
  intro d hd
  unfold buildWeekPlan at hd
  rcases List.mem_map.1 hd with ⟨j, hj, rfl⟩
  dsimp only
  rw [List.length_take, length_questsFor]
  exact Nat.min_comm _ _

/-- Witness for C10: the first generated day for the single category
exercise has exactly `min 2 5 = 2` quests. -/
theorem c10_day_quest_count_witness :
    ((buildWeekPlan idStream [CategoryKey.exercise]).headD { day := 0, quests := [] }).quests.length
      = min (2 * [CategoryKey.exercise].length) 5 :=
  c10_day_quest_count idStream [CategoryKey.exercise] (by decide) _ (by decide)

theorem flipDone_flipDone (q : Quest) : flipDone (flipDone q) = q := by
  cases q; simp [flipDone]

theorem questIdIs_flipDone (qid : String) (q : Quest) :
    questIdIs qid (flipDone q) = questIdIs qid q := rfl

theorem updDay_updDay_self (qid : String) (d : DayPlan) (q : Quest)
    (hfind : d.quests.find? (questIdIs qid) = some q) :
    updDay (questIdIs qid) flipDone (updDay (questIdIs qid) flipDone d) = d := by
  unfold updDay
  dsimp only
  rw [modifyFirst_modifyFirst _ _ _ (fun a => questIdIs_flipDone qid a)]
  rw [modifyFirst_eq_self _ _ d.quests q hfind (flipDone_flipDone q)]

/-- C3: the completion round trip.  The first conjunct is the `page.tsx`
path: `toggleDone` adds the fixed 1-point amount when a (not-done) quest is
toggled on, and toggling the same quest off again returns both the state
and the cumulative score exactly to their prior values (the cumulative
score is never negative, so the `max 0` clamp is inert).  The second
conjunct is the `P2` path, where the score is the derived `totalPoints` of
the state: the double toggle returns the exact prior state, hence the same
`totalPoints`. -/
theorem c3_score_round_trip :
    (∀ (st : AppState) (score : Int) (dayIdx : Nat) (qid : String)
        (day : DayPlan) (q : Quest) (st1 : AppState) (sc1 : Int),
      0 ≤ score →
      st.plans[dayIdx]? = some day →
      day.quests.find? (questIdIs qid) = some q →
      q.done = false →
      toggleDonePage st score dayIdx qid = some (st1, sc1) →
      sc1 = score + 1 ∧ toggleDonePage st1 sc1 dayIdx qid = some (st, score)) ∧
    (∀ (st : AppState) (dayIdx : Nat) (qid : String)
        (day : DayPlan) (q : Quest) (st1 : AppState),
      st.plans[dayIdx]? = some day →
      day.quests.find? (questIdIs qid) = some q →
      q.enabled = true →
      toggleDoneP2 st dayIdx qid = some st1 →
      toggleDoneP2 st1 dayIdx qid = some st ∧ totalPoints st = totalPoints st) := by
  constructor
  · intro st score dayIdx qid day q st1 sc1 hs hget hfind hdone htog
    have hpq : questIdIs qid q = true := List.find?_some hfind
    have hpq' : questIdIs qid (flipDone q) = true := by
      rw [questIdIs_flipDone]; exact hpq
    simp only [toggleDonePage, hget, hfind, hdone, Bool.not_false, if_true, addScore] at htog
    injection htog with h
    injection h with h1 h2
    subst h1; subst h2
    refine ⟨rfl, ?_⟩
    have hget1 : (modifyIdx (updDay (questIdIs qid) flipDone) dayIdx st.plans)[dayIdx]? =
        some (updDay (questIdIs qid) flipDone day) := by
      rw [getElem?_modifyIdx_self, hget]; rfl
    have hfind1 : (updDay (questIdIs qid) flipDone day).quests.find? (questIdIs qid) =
        some (flipDone q) := find?_modifyFirst _ _ _ _ hfind hpq'
    simp only [toggleDonePage, hget1, hfind1, flipDone, hdone, Bool.not_false, Bool.not_true,
      if_false]
    have hplans : modifyIdx (updDay (questIdIs qid) flipDone) dayIdx
        (modifyIdx (updDay (questIdIs qid) flipDone) dayIdx st.plans) = st.plans := by
      rw [modifyIdx_modifyIdx]
      exact modifyIdx_eq_self _ dayIdx st.plans day hget (updDay_updDay_self qid day q hfind)
    have hscore : max 0 (score + 1 - 1) = score := by omega
    simp [hplans, hscore, hs]
  · intro st dayIdx qid day q st1 hget hfind hen htog
    have hpq : questIdIs qid q = true := List.find?_some hfind
    have hpq' : questIdIs qid (flipDone q) = true := by
      rw [questIdIs_flipDone]; exact hpq
    simp only [toggleDoneP2, hget, hfind, hen, if_true] at htog
    injection htog with h
    subst h
    refine ⟨?_, rfl⟩
    have hget1 : (modifyIdx (updDay (questIdIs qid) flipDone) dayIdx st.plans)[dayIdx]? =
        some (updDay (questIdIs qid) flipDone day) := by
      rw [getElem?_modifyIdx_self, hget]; rfl
    have hfind1 : (updDay (questIdIs qid) flipDone day).quests.find? (questIdIs qid) =
        some (flipDone q) := find?_modifyFirst _ _ _ _ hfind hpq'
    have hen1 : (flipDone q).enabled = true := hen
    simp only [toggleDoneP2, hget1, hfind1, hen1, if_true]
    have hplans : modifyIdx (updDay (questIdIs qid) flipDone) dayIdx
        (modifyIdx (updDay (questIdIs qid) flipDone) dayIdx st.plans) = st.plans := by
      rw [modifyIdx_modifyIdx]
      exact modifyIdx_eq_self _ dayIdx st.plans day hget (updDay_updDay_self qid day q hfind)
    simp [hplans]

def c3q : Quest := { id := "a", title := "t", done := false, enabled := true }

def c3st : AppState :=
  { selectedCategories := [], plans := [{ day := 1, quests := [c3q] }] }

def c3st1 : AppState :=
  { selectedCategories := [], plans := [{ day := 1, quests := [{ c3q with done := true }] }] }

/-- Witness for C3: one concrete quest toggled on (score 0 → 1) and off
again returns exactly the prior state and score. -/
theorem c3_score_round_trip_witness :
    toggleDonePage c3st1 1 0 "a" = some (c3st, 0) :=
  (c3_score_round_trip.1 c3st 0 0 "a" { day := 1, quests := [c3q] } c3q c3st1 1
    (by decide) (by decide) (by decide) (by decide) (by decide)).2

def c2q : Quest := { id := "a", title := "t", done := true, enabled := true }

def c2st : AppState :=
  { selectedCategories := [], plans := [{ day := 1, quests := [c2q] }] }

def c2stBad : AppState :=
  { selectedCategories := [],
    plans := [{ day := 1, quests := [{ id := "a", title := "t", done := true, enabled := false }] }] }

/-- C2 counterexample: in `page.tsx` (the build entry), `toggleEnabled` on
an enabled, completed quest merely flips `enabled`; the result keeps
`done = true` on a disabled quest, so disabling does **not** force
`done = false` and the invariant `!enabled ⇒ !done` is violated. -/
theorem c2_counterexample :
    toggleEnabledPage c2st 0 "a" = some c2stBad ∧
    (c2stBad.plans.flatMap (fun d => d.quests)).any (fun q => !q.enabled && q.done) = true := by
  decide

/-- C2 (amended to the `P2` variant): plan generation creates only enabled,
not-done quests; the `P2` toggles preserve the invariant `!enabled ⇒
!done`; and `P2`'s `toggleEnabled` on an enabled quest disables it **and**
forces `done = false`. -/
theorem c2_amended_invariant :
    (∀ (ids : Nat → String) (selected : List CategoryKey) (d : DayPlan) (q : Quest),
      d ∈ buildWeekPlan ids selected → q ∈ d.quests → q.enabled = true ∧ q.done = false) ∧
    (∀ (st : AppState) (dayIdx : Nat) (qid : String) (st' : AppState),
      toggleEnabledP2 st dayIdx qid = some st' → invHolds st → invHolds st') ∧
    (∀ (st : AppState) (dayIdx : Nat) (qid : String) (st' : AppState),
      toggleDoneP2 st dayIdx qid = some st' → invHolds st → invHolds st') ∧
    (∀ (st : AppState) (dayIdx : Nat) (qid : String) (day : DayPlan) (q : Quest),
      st.plans[dayIdx]? = some day →
      day.quests.find? (questIdIs qid) = some q → q.enabled = true →
      ∃ st', toggleEnabledP2 st dayIdx qid = some st' ∧
        ∃ d', st'.plans[dayIdx]? = some d' ∧
          { q with enabled := false, done := false } ∈ d'.quests) := by
  refine ⟨?_, ?_, ?_, ?_⟩
  · intro ids selected d q hd hq
    unfold buildWeekPlan at hd
    rcases List.mem_map.1 hd with ⟨j, hj, rfl⟩
    have := flags_questsFor ids (j + 1) selected 0 _ q (List.mem_of_mem_take hq)
    exact ⟨this.2, this.1⟩
  · intro st dayIdx qid st' htog hinv
    cases hget : st.plans[dayIdx]? with
    | none => simp [toggleEnabledP2, hget] at htog
    | some day =>
      cases hfind : day.quests.find? (questIdIs qid) with
      | none =>
        simp only [toggleEnabledP2, hget, hfind] at htog
        injection htog with h
        exact h ▸ hinv
      | some q =>
        simp only [toggleEnabledP2, hget, hfind] at htog
        injection htog with h
        subst h
        intro d' hd' q' hq' hne
        rcases mem_modifyIdx _ dayIdx st.plans d' hd' with hmem | ⟨a, ha, rfl⟩
        · exact hinv d' hmem q' hq' hne
        · rw [hget] at ha
          injection ha with ha
          subst ha
          rcases mem_modifyFirst _ _ day.quests q' hq' with hmem | ⟨b, hb, rfl⟩
          · exact hinv day (List.getElem?_mem hget) q' hmem hne
          · by_cases hbe : b.enabled
            · simp [flipEnabledP2, hbe]
            · simp [flipEnabledP2, hbe] at hne
  · intro st dayIdx qid st' htog hinv
    cases hget : st.plans[dayIdx]? with
    | none => simp [toggleDoneP2, hget] at htog
    | some day =>
      cases hfind : day.quests.find? (questIdIs qid) with
      | none =>
        simp only [toggleDoneP2, hget, hfind] at htog
        injection htog with h
        exact h ▸ hinv
      | some q =>
        by_cases hqe : q.enabled
        · simp only [toggleDoneP2, hget, hfind, hqe, if_true] at htog
          injection htog with h
          subst h
          intro d' hd' q' hq' hne
          rcases mem_modifyIdx _ dayIdx st.plans d' hd' with hmem | ⟨a, ha, rfl⟩
          · exact hinv d' hmem q' hq' hne
          · rw [hget] at ha
            injection ha with ha
            subst ha
            rcases mem_modifyFirst _ _ day.quests q' hq' with hmem | ⟨b, hb, rfl⟩
            · exact hinv day (List.getElem?_mem hget) q' hmem hne
            · rw [hfind] at hb
              injection hb with hb
              subst hb
              rw [show (flipDone q).enabled = q.enabled from rfl, hqe] at hne
              cases hne
        · simp only [toggleDoneP2, hget, hfind, hqe, if_false] at htog
          injection htog with h
          exact h ▸ hinv
  · intro st dayIdx qid day q hget hfind hen
    have hres : toggleEnabledP2 st dayIdx qid = some { st with plans := modifyIdx (updDay (questIdIs qid) flipEnabledP2) dayIdx st.plans } := by
      simp only [toggleEnabledP2, hget, hfind]
    refine ⟨_, hres, ?_⟩
    refine ⟨updDay (questIdIs qid) flipEnabledP2 day, ?_, ?_⟩
    · rw [getElem?_modifyIdx_self, hget]; rfl
    · have := apply_mem_modifyFirst (questIdIs qid) flipEnabledP2 day.quests q hfind
      have hval : flipEnabledP2 q = { q with enabled := false, done := false } := by
        simp [flipEnabledP2, hen]
      rw [hval] at this
      exact this

/-- Witness for C2: `P2`'s `toggleEnabled` on the enabled, completed quest
of a concrete state yields a state whose quest is disabled and not done. -/
theorem c2_amended_invariant_witness :
    ∃ st', toggleEnabledP2 c2st 0 "a" = some st' ∧
      ∃ d', st'.plans[0]? = some d' ∧
        { c2q with enabled := false, done := false } ∈ d'.quests :=
  c2_amended_invariant.2.2.2 c2st 0 "a" { day := 1, quests := [c2q] } c2q
    (by decide) (by decide) (by decide)

def c6q : Quest := { id := "a", title := "t", done := false, enabled := false }

def c6st : AppState :=
  { selectedCategories := [], plans := [{ day := 1, quests := [c6q] }] }

def c6stBad : AppState :=
  { selectedCategories := [],
    plans := [{ day := 1, quests := [{ id := "a", title := "t", done := true, enabled := false }] }] }

/-- C6 counterexample: in `page.tsx` (the build entry), `toggleDone` on a
**disabled** quest is not a no-op: it flips `done` to `true` and bumps the
score from 0 to 1, mutating the state instead of leaving it unchanged. -/
theorem c6_counterexample :
    toggleDonePage c6st 0 0 "a" = some (c6stBad, 1) ∧ c6stBad ≠ c6st := by decide

/-- C6 (amended to the `P2` variant, for a day index inside the plan):
`toggleDone` is a silent no-op — the exact same state, no exception — when
the referenced quest is not found or is disabled, and flips `done` of the
referenced quest when it exists and is enabled. -/
theorem c6_amended_guarded (st : AppState) (dayIdx : Nat) (qid : String) (day : DayPlan)
    (hget : st.plans[dayIdx]? = some day) :
    (day.quests.find? (questIdIs qid) = none → toggleDoneP2 st dayIdx qid = some st) ∧
    (∀ q, day.quests.find? (questIdIs qid) = some q → q.enabled = false →
      toggleDoneP2 st dayIdx qid = some st) ∧
    (∀ q, day.quests.find? (questIdIs qid) = some q → q.enabled = true →
      ∃ st', toggleDoneP2 st dayIdx qid = some st' ∧
        ∃ d', st'.plans[dayIdx]? = some d' ∧ flipDone q ∈ d'.quests) := by
  refine ⟨?_, ?_, ?_⟩
  · intro hfind
    simp only [toggleDoneP2, hget, hfind]
  · intro q hfind hdis
    simp only [toggleDoneP2, hget, hfind, hdis, Bool.false_eq_true, if_false]
  · intro q hfind hen
    have hres : toggleDoneP2 st dayIdx qid = some { st with plans := modifyIdx (updDay (questIdIs qid) flipDone) dayIdx st.plans } := by
      simp only [toggleDoneP2, hget, hfind, hen, if_true]
    refine ⟨_, hres, ?_⟩
    refine ⟨updDay (questIdIs qid) flipDone day, ?_, ?_⟩
    · rw [getElem?_modifyIdx_self, hget]; rfl
    · exact apply_mem_modifyFirst (questIdIs qid) flipDone day.quests q hfind

/-- Witness for C6: `P2`'s `toggleDone` on a concrete state whose only
quest is disabled returns the state unchanged. -/
theorem c6_amended_guarded_witness :
    toggleDoneP2 c6st 0 "a" = some c6st :=
  (c6_amended_guarded c6st 0 "a" { day := 1, quests := [c6q] } (by decide)).2.1 c6q
    (by decide) (by decide)

/-- JSON value trees.  `JSON.stringify` on the app state produces the
rendering of such a tree (all numbers occurring in the state are
integers); since JSON string rendering is injective, the stored blob is
modelled by the tree itself. -/
inductive Json where
  | jnull : Json
  | jbool : Bool → Json
  | jnum : Int → Json
  | jstr : String → Json
  | jarr : List Json → Json
  | jobj : List (String × Json) → Json

def lookupField : List (String × Json) → String → Option Json
  | [], _ => none
  | (k, v) :: rest, key => if k == key then some v else lookupField rest key

def Json.getField : Json → String → Option Json
  | .jobj fields, key => lookupField fields key
  | _, _ => none

def jStr? : Json → Option String
  | .jstr s => some s
  | _ => none

def jBool? : Json → Option Bool
  | .jbool b => some b
  | _ => none

def jInt? : Json → Option Int
  | .jnum n => some n
  | _ => none

def jNat? : Json → Option Nat
  | .jnum (.ofNat n) => some n
  | _ => none

def jArr? : Json → Option (List Json)
  | .jarr l => some l
  | _ => none

/-- `JSON.stringify` drops properties whose value is `undefined`; an
optional field contributes either nothing or one key/value pair. -/
def optField (key : String) (f : α → Json) : Option α → List (String × Json)
  | none => []
  | some v => [(key, f v)]

/-- Reading an optional property: absence decodes to `none`; a present
value must decode. -/
def getOptField (j : Json) (key : String) (f : Json → Option α) : Option (Option α) :=
  match j.getField key with
  | none => some none
  | some v => (f v).map some

def decodeList (f : Json → Option α) : List Json → Option (List α)
  | [] => some []
  | j :: js =>
    match f j, decodeList f js with
    | some a, some as => some (a :: as)
    | _, _ => none

def encodeQuest (q : Quest) : Json :=
  .jobj ([("id", .jstr q.id), ("title", .jstr q.title), ("done", .jbool q.done),
      ("enabled", .jbool q.enabled)] ++
    optField "category" Json.jstr q.category ++ optField "points" Json.jnum q.points ++
    optField "progress" Json.jnum q.progress ++ optField "locked" Json.jbool q.locked ++
    optField "note" Json.jstr q.note)

def decodeQuest (j : Json) : Option Quest := do
  let id ← j.getField "id" >>= jStr?
  let title ← j.getField "title" >>= jStr?
  let done ← j.getField "done" >>= jBool?
  let enabled ← j.getField "enabled" >>= jBool?
  let category ← getOptField j "category" jStr?
  let points ← getOptField j "points" jInt?
  let progress ← getOptField j "progress" jInt?
  let locked ← getOptField j "locked" jBool?
  let note ← getOptField j "note" jStr?
  pure { id := id, title := title, done := done, enabled := enabled, category := category,
         points := points, progress := progress, locked := locked, note := note }

def encodeDayPlan (d : DayPlan) : Json :=
  .jobj [("day", .jnum (Int.ofNat d.day)), ("quests", .jarr (d.quests.map encodeQuest))]

def decodeDayPlan (j : Json) : Option DayPlan := do
  let day ← j.getField "day" >>= jNat?
  let qs ← j.getField "quests" >>= jArr?
  let quests ← decodeList decodeQuest qs
  pure { day := day, quests := quests }

def encodeTheme (t : Theme) : Json :=
  .jobj [("backgroundColor", .jstr t.backgroundColor), ("textColor", .jstr t.textColor)]

def decodeTheme (j : Json) : Option Theme := do
  let b ← j.getField "backgroundColor" >>= jStr?
  let tc ← j.getField "textColor" >>= jStr?
  pure { backgroundColor := b, textColor := tc }

def decodeCategory (s : String) : Option CategoryKey :=
  if s == "運動" then some .exercise
  else if s == "学習" then some .learning
  else if s == "習慣" then some .habit
  else if s == "信仰" then some .faith
  else if s == "人間力" then some .social
  else if s == "金銭" then some .finance
  else if s == "睡眠" then some .sleep
  else if s == "食事" then some .diet
  else if s == "メンタル" then some .mental
  else none

def encodeAppState (st : AppState) : Json :=
  .jobj ([("selectedCategories",
        .jarr (st.selectedCategories.map (fun c => .jstr c.keyStr))),
      ("plans", .jarr (st.plans.map encodeDayPlan))] ++
    optField "createdAt" Json.jstr st.createdAt ++ optField "theme" encodeTheme st.theme)

/-- Element decoder for the `selectedCategories` array. -/
def decodeCategoryJson (x : Json) : Option CategoryKey :=
  jStr? x >>= decodeCategory

def decodeAppState (j : Json) : Option AppState := do
  let sc ← j.getField "selectedCategories" >>= jArr?
  let selectedCategories ← decodeList decodeCategoryJson sc
  let ps ← j.getField "plans" >>= jArr?
  let plans ← decodeList decodeDayPlan ps
  let createdAt ← getOptField j "createdAt" jStr?
  let theme ← getOptField j "theme" decodeTheme
  pure { selectedCategories := selectedCategories, plans := plans, createdAt := createdAt,
         theme := theme }

/-- The single storage cell under `STORAGE_KEY`, at parse granularity:
`none` = key absent; `some none` = present but not syntactically valid JSON
(`JSON.parse` throws); `some (some j)` = present and parses to `j`. -/
abbrev StorageCell := Option (Option Json)

/-- `saveState`: a no-op outside a browser (`typeof window === "undefined"`),
otherwise replaces the cell with the serialized state. -/
def saveState (windowDefined : Bool) (cell : StorageCell) (st : AppState) : StorageCell :=
  if windowDefined then some (some (encodeAppState st)) else cell

/-- `loadState`: `null` outside a browser; `null` when the key is absent
(`raw` falsy) or when `JSON.parse` throws (the surrounding `try`/`catch`
returns `null`); otherwise the parsed value (the unchecked `as AppState`
cast is modelled by the shape decoder). -/
def loadState (windowDefined : Bool) (cell : StorageCell) : Option AppState :=
  if windowDefined then
    match cell with
    | none => none
    | some none => none
    | some (some j) => decodeAppState j
  else none

theorem decodeQuest_encodeQuest (q : Quest) : decodeQuest (encodeQuest q) = some q := by
  rcases q with ⟨id, title, done, enabled, category, points, progress, locked, note⟩
  cases category <;> cases points <;> cases progress <;> cases locked <;> cases note <;> rfl

theorem decodeTheme_encodeTheme (t : Theme) : decodeTheme (encodeTheme t) = some t := by
  cases t; rfl

theorem decodeCategory_keyStr (c : CategoryKey) : decodeCategory c.keyStr = some c := by
  cases c <;> rfl

theorem decodeList_map (f : Json → Option α) (enc : α → Json)
    (h : ∀ a, f (enc a) = some a) : ∀ l : List α, decodeList f (l.map enc) = some l
  | [] => rfl
  | a :: as => by
    simp only [List.map_cons, decodeList, h a, decodeList_map f enc h as]

theorem decodeDayPlan_encodeDayPlan (d : DayPlan) : decodeDayPlan (encodeDayPlan d) = some d := by
  cases d with
  | mk day quests =>
    have hq := decodeList_map decodeQuest encodeQuest decodeQuest_encodeQuest quests
    simp [decodeDayPlan, encodeDayPlan, Json.getField, lookupField, jNat?, jArr?, hq]

theorem decodeAppState_encodeAppState (st : AppState) :
    decodeAppState (encodeAppState st) = some st := by
  rcases st with ⟨sc, plans, createdAt, theme⟩
  have hsc := decodeList_map decodeCategoryJson (fun c => Json.jstr c.keyStr)
    (fun c => by simp [decodeCategoryJson, jStr?, decodeCategory_keyStr]) sc
  have hp := decodeList_map decodeDayPlan encodeDayPlan decodeDayPlan_encodeDayPlan plans
  cases createdAt <;> cases theme <;>
    simp [decodeAppState, encodeAppState, Json.getField, lookupField, getOptField, jArr?,
      jStr?, optField, hsc, hp, decodeTheme_encodeTheme]

/-- C7: with storage available, `loadState` immediately after
`saveState state` (no intervening external mutation of the cell) returns
exactly the saved state. -/
theorem c7_save_load_round_trip (st : AppState) (cell : StorageCell) :
    loadState true (saveState true cell st) = some st := by
  simp [loadState, saveState, decodeAppState_encodeAppState]

/-- C8: `loadState` never throws and returns absent (`null`) on every
failure mode: outside a browser (whatever the cell holds), on a missing
key, and on stored data that is not valid JSON. -/
theorem c8_load_failure_absent :
    (∀ cell : StorageCell, loadState false cell = none) ∧
    loadState true none = none ∧
    loadState true (some none) = none := by
  refine ⟨fun cell => rfl, rfl, rfl⟩

inductive ChatRole where
  | user | assistant
  deriving DecidableEq, Repr

structure ChatMsg where
  role : ChatRole
  content : String
  deriving DecidableEq, Repr

/-- Does the second character list start with the first (regex `^pat`)? -/
def strStarts : List Char → List Char → Bool
  | [], _ => true
  | _ :: _, [] => false
  | p :: ps, c :: cs => p == c && strStarts ps cs

/-- Does the character list contain the pattern as a contiguous run
(an unanchored regex literal)? -/
def containsSeq (pat : List Char) : List Char → Bool
  | [] => strStarts pat []
  | c :: cs => strStarts pat (c :: cs) || containsSeq pat cs

/-- `input.trim()`: strip whitespace from both ends. -/
def trimChars (l : List Char) : List Char :=
  ((l.dropWhile Char.isWhitespace).reverse.dropWhile Char.isWhitespace).reverse

/-- Does the text end in the given character (regex `[c]$`)? -/
def lastIs (l : List Char) (c : Char) : Bool :=
  l.getLast? == some c

/-- `Array.prototype.join(sep)`. -/
def joinSep (sep : String) : List String → String
  | [] => ""
  | [x] => x
  | x :: xs => x ++ sep ++ joinSep sep xs

/-- The fixed tip pool of the fallback branch of `mockAssistant`. -/
def tips : List String :=
  ["タイマーを10分セット", "やることを3つに絞る", "終わったら一言日記", "水を一杯飲む",
   "机の上を15秒だけ整える"]

/-- `mockAssistant` from `page.tsx` (the spec §4.4 responder; the `P2` file
swaps in an unrelated three-rule dummy).  Ordered rules, first match wins;
only the fallback consults the shuffle, modelled by the parameter `shuf`
(the `Math.random`-driven Fisher–Yates permutation).  Text is handled at
the character-sequence level; `slice(0, 40)` and `.length` count UTF-16
units in JavaScript and characters here, which agree on all
basic-multilingual-plane text such as these rules' patterns. -/
def mockAssistant (shuf : List String → List String) (input : String)
    (history : List ChatMsg) : String :=
  let text := trimChars input.data
  let lower := text.map Char.toLower
  if strStarts "help".data text || strStarts "ヘルプ".data text ||
      containsSeq "困った".data text || containsSeq "どう使".data text then
    "使い方: 目標や悩みを書いて。小さく分解したタスク案を返すよ。例: ‘英単語を覚えたい’"
  else if containsSeq "こんにちは".data text || containsSeq "初めまして".data text ||
      containsSeq "こんちは".data text then
    "こんにちは。今日は何を進める？7分で出来る小タスクからいこう"
  else if containsSeq "天気".data lower || containsSeq "weather".data lower then
    "天気はこのモックでは見られないけど、代わりに ‘屋内で出来ること’ を3つ提案: 1) ストレッチ7分 2) 読書10分 3) 机の片付け5分"
  else if containsSeq "英単語".data text || containsSeq "単語".data text ||
      containsSeq "英語".data text then
    "提案: 1) 1分で復習テーマ決め 2) 7分で10語暗記 3) 2分で自己テスト → 合計10分"
  else if containsSeq "運動".data text || containsSeq "筋トレ".data text ||
      containsSeq "ストレッチ".data text || containsSeq "走".data text then
    "提案: 1) 1分準備 2) 7分サーキット(腕立て/スクワット/プランク) 3) 2分整理"
  else if lastIs text '?' || lastIs text '？' then
    let lastUser := (((history.reverse).find? (fun m => m.role == ChatRole.user)).map
      (fun m => m.content)).getD ""
    "要するに『" ++ String.mk (lastUser.data.take 40) ++ "』ってことかな。まずは小さく試すと良いよ"
  else
    let len := text.length
    let n := max 3 (min 5 (len / 12))
    let pick := joinSep " / " ((shuf tips).take n)
    "なるほど。いまから出来る小さな一歩: " ++ pick

/-- C9: on input "help" the first rule (help/usage keywords) matches and the
fixed usage message is returned, for every conversation history and every
behavior of the fallback shuffle — the keyword path is deterministic. -/
theorem c9_help_deterministic (shuf : List String → List String) (history : List ChatMsg) :
    mockAssistant shuf "help" history =
      "使い方: 目標や悩みを書いて。小さく分解したタスク案を返すよ。例: ‘英単語を覚えたい’" := rfl
